import Mathlib

/-!
Formal model of the `voice-equalizer` repository.

The digital-signal-processing core (`src/voice_equalizer/processing.py`) is
embedded shallowly: machine floats become elements of a linear ordered field
(instantiated at `ℚ` for concrete evaluation and at `ℝ` where the source
computes with transcendental functions), numpy arrays become lists, and the
mutable per-section filter state is threaded explicitly.
-/

/-- A second-order IIR filter section (biquad).  In the source a section is one
row `[b0, b1, b2, a0, a1, a2]` of a scipy SOS array; every designer in the
repository produces rows normalized so that `a0 = 1`. -/
structure Biquad (α : Type) where
  b0 : α
  b1 : α
  b2 : α
  a0 : α
  a1 : α
  a2 : α

/-- The two delayed values of one biquad section (scipy `zi` row), the only
state `sosfilt` threads between consecutive blocks. -/
abbrev BqState (α : Type) := α × α

/-- One sample of scipy's `sosfilt` direct-form-II-transposed recurrence for a
single section (with `a0 = 1`, as produced by every designer in the repo):
`y = b0*x + z1`, `z1' = b1*x - a1*y + z2`, `z2' = b2*x - a2*y`. -/
def biquadStep {α : Type} [LinearOrderedField α] (c : Biquad α) (s : BqState α) (xn : α) :
    α × BqState α :=
  let y := c.b0 * xn + s.1
  (y, (c.b1 * xn - c.a1 * y + s.2, c.b2 * xn - c.a2 * y))

/-- Run one biquad section over a whole block, returning the filtered block and
the final state (the `sosfilt` inner loop for one section). -/
def biquadFilter {α : Type} [LinearOrderedField α] (c : Biquad α) :
    BqState α → List α → List α × BqState α
  | s, [] => ([], s)
  | s, xn :: xs =>
    let r := biquadStep c s xn
    let rest := biquadFilter c r.2 xs
    (r.1 :: rest.1, rest.2)

/-- `scipy.signal.sosfilt(sos, x, zi=zi)`: apply the sections of one SOS array
in cascade, threading one `zi` row per section; returns the filtered block and
the updated `zi` rows.  All call sites in the repository pass a `zi` of the
same length as the section list, so the defaults of `headD`/`tail` are never
exercised. -/
def sosfilt {α : Type} [LinearOrderedField α] :
    List (Biquad α) → List (BqState α) → List α → List α × List (BqState α)
  | [], _, x => (x, [])
  | c :: cs, zs, x =>
    let r := biquadFilter c (zs.headD (0, 0)) x
    let rest := sosfilt cs zs.tail r.1
    (rest.1, r.2 :: rest.2)

/-- The loop body of `AudioProcessor._process` (processing.py lines 123-131):
walk the chain with its running index `i`; at `i = bass` compute the parallel
tap `low` (advancing the section state), then the in-series continuation from
the same, already advanced, state, then mix `x + low * 2.0`; every other
section filters the signal once.  Returns the working signal and the updated
`zi` list. -/
def chainFilterAux {α : Type} [LinearOrderedField α] (bass : ℕ) :
    List (List (Biquad α)) → List (List (BqState α)) → ℕ → List α →
      List α × List (List (BqState α))
  | [], _, _, x => (x, [])
  | sos :: rest, zis, i, x =>
    if i = bass then
      let r1 := sosfilt sos (zis.headD []) x
      let r2 := sosfilt sos r1.2 x
      let rrest := chainFilterAux bass rest zis.tail (i + 1)
        (List.zipWith (fun a l => a + l * 2) r2.1 r1.1)
      (rrest.1, r2.2 :: rrest.2)
    else
      let r := sosfilt sos (zis.headD []) x
      let rrest := chainFilterAux bass rest zis.tail (i + 1) r.1
      (rrest.1, r.2 :: rrest.2)

/-- Follows the spec's words: the chain with "every other section applied
exactly once in chain order" — each stage filters the working signal once and
its state advances once.  Used to compare against `chainFilterAux`. -/
def applyOnce {α : Type} [LinearOrderedField α] :
    List (List (Biquad α)) → List (List (BqState α)) → List α →
      List α × List (List (BqState α))
  | [], _, x => (x, [])
  | sos :: rest, zis, x =>
    let r := sosfilt sos (zis.headD []) x
    let rrest := applyOnce rest zis.tail r.1
    (rrest.1, r.2 :: rrest.2)

/-- `np.mean(x ** 2)`: the mean of the squared samples (for the empty block the
source would produce NaN; here division by zero yields `0`, which leads to the
same all-zero output). -/
def meanSq {α : Type} [LinearOrderedField α] (x : List α) : α :=
  (x.map fun v => v * v).sum / (x.length : α)

/-- The noise-gate test of `AudioProcessor._process`: the source compares
`rms = sqrt(meanSq x)` against `10 ** (-45/20)`.  Since both sides are
nonnegative this is equivalent to `meanSq x < 10^(-9/2)`, i.e. to
`(meanSq x)^2 < 10⁻⁹`, which stays inside the field.  The equivalence with the
square-root form is proved in `gateTriggers_iff_realRms`. -/
def gateTriggers {α : Type} [LinearOrderedField α] (x : List α) : Bool :=
  decide (meanSq x ^ 2 < 1 / 10 ^ 9)

/-- `AudioProcessor.bass_idx` (processing.py line 119): the bass low-pass
branch index. -/
def bass_idx : ℕ := 2

/-- `AudioProcessor._process` (processing.py lines 122-137): push one block
through the chain (`chainFilterAux` at index 0 with the bass branch at
`bass_idx`), then apply the hard noise gate `x *= 0.0` when
`rms < 10 ** (-45/20)`.  Returns the output block and the updated states. -/
def _process {α : Type} [LinearOrderedField α] (chain : List (List (Biquad α)))
    (zi : List (List (BqState α))) (x : List α) : List α × List (List (BqState α)) :=
  let r := chainFilterAux bass_idx chain zi 0 x
  (if gateTriggers r.1 then r.1.map (fun v => v * 0) else r.1, r.2)

/-- RMS of a block as the source computes it, `np.sqrt(np.mean(x ** 2))`, as a
real number. -/
noncomputable def realRms (x : List ℝ) : ℝ :=
  Real.sqrt (meanSq x)

/-- A user band as stored in a preset dict: `freq` is mandatory
(`band["freq"]`), while `gain_db` and `Q` may be absent (`band.get`). -/
structure BandSpec where
  name : String
  freq : ℚ
  gain_db : Option ℚ
  Q : Option ℚ

/-- `_peaking_sos` (processing.py lines 21-39): peaking-EQ biquad from Robert
Bristow-Johnson's Audio EQ Cookbook, coefficients normalized by `a0`. -/
noncomputable def _peaking_sos (f0 gain_db Q : ℚ) (fs : ℤ) : List (Biquad ℝ) :=
  let A : ℝ := (10 : ℝ) ^ ((gain_db : ℝ) / 40)
  let w0 : ℝ := 2 * Real.pi * (f0 : ℝ) / (fs : ℝ)
  let alpha : ℝ := Real.sin w0 / (2 * (Q : ℝ))
  let b0 : ℝ := 1 + alpha * A
  let b1 : ℝ := -2 * Real.cos w0
  let b2 : ℝ := 1 - alpha * A
  let a0 : ℝ := 1 + alpha / A
  let a1 : ℝ := -2 * Real.cos w0
  let a2 : ℝ := 1 - alpha / A
  [⟨b0 / a0, b1 / a0, b2 / a0, 1, a1 / a0, a2 / a0⟩]

/-- Follows the spec's words (§4.1 step 4): the Audio EQ Cookbook peaking
filter — `A = 10^(G/40)`, `w0 = 2π f0/fs`, `alpha = sin(w0)/(2Q)`, unnormalized
coefficients `b0 = 1+alpha·A, b1 = -2cos(w0), b2 = 1-alpha·A, a0 = 1+alpha/A,
a1 = -2cos(w0), a2 = 1-alpha/A`, final coefficients `b/a0` and `a/a0` with `a0`
normalized to 1.  Stated separately from `_peaking_sos` to compare the code
against the spec. -/
noncomputable def peakingCookbookSpec (f0 gain_db Q : ℚ) (fs : ℤ) : List (Biquad ℝ) :=
  let A : ℝ := (10 : ℝ) ^ ((gain_db : ℝ) / 40)
  let w0 : ℝ := 2 * Real.pi * (f0 : ℝ) / (fs : ℝ)
  let alpha : ℝ := Real.sin w0 / (2 * (Q : ℝ))
  let b0 : ℝ := 1 + alpha * A
  let b1 : ℝ := -2 * Real.cos w0
  let b2 : ℝ := 1 - alpha * A
  let a0 : ℝ := 1 + alpha / A
  let a1 : ℝ := -2 * Real.cos w0
  let a2 : ℝ := 1 - alpha / A
  [⟨b0 / a0, b1 / a0, b2 / a0, 1, a1 / a0, a2 / a0⟩]

/-- Models the external `scipy.signal.butter(N=2, btype="low")` digital design
(standard prewarped bilinear transform of the order-2 Butterworth prototype):
one biquad.  No claim depends on these coefficient values, only on the section
count and on the ValueError raised for out-of-range critical frequencies. -/
noncomputable def butterLow2 (f fs : ℤ) : List (Biquad ℝ) :=
  let K : ℝ := Real.tan (Real.pi * (f : ℝ) / (fs : ℝ))
  let D : ℝ := 1 + Real.sqrt 2 * K + K ^ 2
  [⟨K ^ 2 / D, 2 * K ^ 2 / D, K ^ 2 / D, 1, 2 * (K ^ 2 - 1) / D,
    (1 - Real.sqrt 2 * K + K ^ 2) / D⟩]

/-- Models the external `scipy.signal.butter(N=2, btype="high")` digital
design: one biquad. -/
noncomputable def butterHigh2 (f fs : ℤ) : List (Biquad ℝ) :=
  let K : ℝ := Real.tan (Real.pi * (f : ℝ) / (fs : ℝ))
  let D : ℝ := 1 + Real.sqrt 2 * K + K ^ 2
  [⟨1 / D, -2 / D, 1 / D, 1, 2 * (K ^ 2 - 1) / D,
    (1 - Real.sqrt 2 * K + K ^ 2) / D⟩]

/-- Models the external `scipy.signal.butter(N=4, btype="low", output="sos")`
digital design: two cascaded biquads (the order-4 Butterworth pole pairs have
quality factors `1/(2cos(π/8))` and `1/(2cos(3π/8))`). -/
noncomputable def butterLow4 (f fs : ℤ) : List (Biquad ℝ) :=
  let K : ℝ := Real.tan (Real.pi * (f : ℝ) / (fs : ℝ))
  let q1 : ℝ := 1 / (2 * Real.cos (Real.pi / 8))
  let q2 : ℝ := 1 / (2 * Real.cos (3 * Real.pi / 8))
  let d1 : ℝ := 1 + K / q1 + K ^ 2
  let d2 : ℝ := 1 + K / q2 + K ^ 2
  [⟨K ^ 2 / d1, 2 * K ^ 2 / d1, K ^ 2 / d1, 1, 2 * (K ^ 2 - 1) / d1, (1 - K / q1 + K ^ 2) / d1⟩,
   ⟨K ^ 2 / d2, 2 * K ^ 2 / d2, K ^ 2 / d2, 1, 2 * (K ^ 2 - 1) / d2, (1 - K / q2 + K ^ 2) / d2⟩]

/-- Models the external `scipy.signal.iirnotch(w0=60, Q=30, fs=fs)` (RBJ notch
at the -3 dB bandwidth): with `w0 = 2π·60/fs` and `beta = tan(w0/(2Q))`,
`g = 1/(1+beta)`, numerator `g·[1, -2cos(w0), 1]`, denominator
`[1, -2g·cos(w0), 2g-1]`.  Packed into one SOS row as in the source. -/
noncomputable def notch60 (fs : ℤ) : List (Biquad ℝ) :=
  let w0 : ℝ := 2 * Real.pi * 60 / (fs : ℝ)
  let beta : ℝ := Real.tan (w0 / (2 * 30))
  let g : ℝ := 1 / (1 + beta)
  [⟨g, -2 * g * Real.cos w0, g, 1, -2 * g * Real.cos w0, 2 * g - 1⟩]

/-- Stage 1 of `design_eq`: high-pass at 80 Hz, order 2. -/
noncomputable def hp80 (fs : ℤ) : List (Biquad ℝ) := butterHigh2 80 fs

/-- Stage 3 of `design_eq`: the bass-boost low-pass branch at 120 Hz. -/
noncomputable def bassLp120 (fs : ℤ) : List (Biquad ℝ) := butterLow2 120 fs

/-- Stage 4 of `design_eq`: the presence peaking bump at 3000 Hz, +3 dB, Q=1.
The source inlines exactly the Audio EQ Cookbook formula of `_peaking_sos`
(processing.py lines 66-84). -/
noncomputable def presence3000 (fs : ℤ) : List (Biquad ℝ) := _peaking_sos 3000 3 1 fs

/-- Stage 5 of `design_eq`: low-pass at 9000 Hz, order 4 (two biquads). -/
noncomputable def lp9000 (fs : ℤ) : List (Biquad ℝ) := butterLow4 9000 fs

/-- Domain checks of the external scipy designers called by `design_eq`: each
digital `butter`/`iirnotch` call raises ValueError unless its critical
frequency satisfies `0 < f < fs/2`.  The fixed critical frequencies are 80, 60,
120 and 9000 Hz; the repository's own code (`_peaking_sos` and the inline
presence filter) performs no check at all. -/
def designValid (fs : ℤ) : Bool :=
  decide (160 < fs) && decide (120 < fs) && decide (240 < fs) && decide (18000 < fs)

/-- `design_eq` (processing.py lines 45-95): the EQ chain, in construction
order — high-pass 80 Hz, notch 60 Hz, bass low-pass 120 Hz, presence peaking
3000 Hz, low-pass 9000 Hz, then one peaking section per extra band with
defaults `gain_db = 6.0` and `Q = 4.0` applied here via `band.get`.  `none`
models the ValueError the scipy designers raise for invalid critical
frequencies; the function itself validates nothing. -/
noncomputable def design_eq (fs : ℤ) (extra_bands : List BandSpec) :
    Option (List (List (Biquad ℝ))) :=
  if designValid fs then
    some ([hp80 fs, notch60 fs, bassLp120 fs, presence3000 fs, lp9000 fs]
      ++ extra_bands.map (fun b => _peaking_sos b.freq (b.gain_db.getD 6) (b.Q.getD 4) fs))
  else none

/-- `np.hanning(M)` (the window used by `_dominant_freq`):
`0.5 - 0.5·cos(2πn/(M-1))` for `n = 0, …, M-1`, with the numpy special case
`hanning 1 = [1]`. -/
noncomputable def hanning (M : ℕ) : List ℝ :=
  if M = 1 then [1]
  else (List.range M).map fun (n : ℕ) =>
    1 / 2 - 1 / 2 * Real.cos (2 * Real.pi * (n : ℝ) / ((M - 1 : ℕ) : ℝ))

/-- Magnitudes of `np.fft.rfft`: bin `k` (for `k = 0, …, N/2`) is the absolute
value of `Σ_j x[j]·exp(-2πi·k·j/N)`. -/
noncomputable def rfftMag (x : List ℝ) : List ℝ :=
  (List.range (x.length / 2 + 1)).map fun (k : ℕ) =>
    Complex.abs (∑ j ∈ Finset.range x.length,
      (x.getD j 0 : ℂ) *
        Complex.exp (-(2 * Real.pi * Complex.I * (k : ℂ) * (j : ℂ)) / (x.length : ℂ)))

/-- Kernel of `np.argmax`: scan keeping the first index attaining the running
maximum (`best` holds the index, `bv` its value, `i` the index of the head). -/
noncomputable def argmaxAux : List ℝ → ℕ → ℕ → ℝ → ℕ
  | [], _, best, _ => best
  | v :: rest, i, best, bv =>
    if bv < v then argmaxAux rest (i + 1) i v else argmaxAux rest (i + 1) best bv

/-- `np.argmax` over a list of magnitudes: index of the first maximal element
(0 for the empty list, on which numpy raises). -/
noncomputable def argmaxIdx : List ℝ → ℕ
  | [] => 0
  | v :: rest => argmaxAux rest 1 0 v

/-- Running maximum value tracked by `argmaxAux` (for the proof that the
returned index attains the maximum magnitude). -/
noncomputable def argmaxVal : List ℝ → ℝ → ℝ
  | [], bv => bv
  | v :: rest, bv => if bv < v then argmaxVal rest v else argmaxVal rest bv

/-- The windowed magnitude spectrum computed inside `_dominant_freq`:
`np.abs(np.fft.rfft(x * np.hanning(len(x))))`. -/
noncomputable def magSpec (x : List ℝ) : List ℝ :=
  rfftMag (List.zipWith (· * ·) x (hanning x.length))

/-- The peak magnitude `mag[np.argmax(mag)]` of the windowed spectrum. -/
noncomputable def peakMag (x : List ℝ) : ℝ :=
  (magSpec x).getD (argmaxIdx (magSpec x)) 0

/-- Bin frequencies of `np.fft.rfftfreq(n, d=1/fs)`: bin `k` (for
`k = 0, …, n/2`) has frequency `k·fs/n`. -/
noncomputable def rfftfreq (n : ℕ) (fs : ℝ) : List ℝ :=
  (List.range (n / 2 + 1)).map fun (k : ℕ) => (k : ℝ) * fs / (n : ℝ)

/-- Detection body of `_dominant_freq` over the windowed signal `xw`:
magnitude spectrum, `np.fft.rfftfreq(len(xw), 1/fs)`, `np.argmax`, and the
fixed `1e-4` threshold test on the peak magnitude. -/
noncomputable def dominantFreqOf (xw : List ℝ) (fs : ℝ) : Option ℝ :=
  let mag := rfftMag xw
  let freqs := rfftfreq xw.length fs
  let idx := argmaxIdx mag
  if mag.getD idx 0 < 1 / 10000 then none
  else some (freqs.getD idx 0)

/-- `_dominant_freq` (tuner.py lines 26-35): Hann-window the samples, take the
magnitude of the real-input FFT, and return the frequency of the
maximum-magnitude bin, or `none` when the peak magnitude is strictly below the
fixed threshold `1e-4`. -/
noncomputable def _dominant_freq (x : List ℝ) (fs : ℝ) : Option ℝ :=
  dominantFreqOf (List.zipWith (· * ·) x (hanning x.length)) fs

/-- Outcome of one user entry at a numeric prompt of the tuner: empty input,
input on which Python's `float` raises ValueError, or a parsed number. -/
inductive Entry where
  | empty : Entry
  | invalid : Entry
  | num : ℚ → Entry

/-- The prompt logic of `run_tuner` for gain and Q: an empty entry takes the
default, a non-numeric entry is caught (`except ValueError`) and silently
falls back to the same default, a parsed number is used as entered. -/
def parseEntry : Entry → ℚ → ℚ
  | .empty, d => d
  | .invalid, d => d
  | .num q, _ => q

/-- One iteration of the `run_tuner` loop, as seen at its input boundary: the
(stripped) name entered, the result of `_dominant_freq` on the recorded
sample, and the two numeric entries.  The recorded audio itself only reaches
the loop through the detection outcome. -/
structure TunerStep where
  name : String
  detected : Option ℚ
  gainEntry : Entry
  qEntry : Entry

/-- A band accumulated by the tuner (`{"name": …, "freq": …, "gain_db": …,
"Q": …}` in the source). -/
structure TunedBand where
  name : String
  freq : ℚ
  gain_db : ℚ
  Q : ℚ

/-- Result of a finished tuner session: `exited` models `sys.exit(1)` with no
preset written, `saved bands` models the `save_preset(preset_path, bands)`
call. -/
inductive TunerOutcome where
  | exited : TunerOutcome
  | saved : List TunedBand → TunerOutcome

/-- The `while True` loop of `run_tuner` (tuner.py lines 44-71) over a finite
script of user interactions: an empty name ends the loop with the accumulated
bands; a failed detection skips the iteration; otherwise the band is appended
with `parseEntry` defaults 6 (gain) and 4 (Q).  `none` means the script was
exhausted while the session still awaited input. -/
def runTunerLoop : List TunerStep → List TunedBand → Option (List TunedBand)
  | [], _ => none
  | s :: rest, acc =>
    if s.name = "" then some acc
    else
      match s.detected with
      | none => runTunerLoop rest acc
      | some f =>
        runTunerLoop rest
          (acc ++ [⟨s.name, f, parseEntry s.gainEntry 6, parseEntry s.qEntry 4⟩])

/-- `run_tuner` (tuner.py lines 56-77) after the loop: with zero accepted bands
print and `sys.exit(1)` (no preset written); otherwise hand the accumulated
band list to `save_preset`. -/
def run_tuner (script : List TunerStep) : Option TunerOutcome :=
  (runTunerLoop script []).map fun bands =>
    if bands.isEmpty then TunerOutcome.exited else TunerOutcome.saved bands

/-- State of `WaveSpectrogramViewer` (viewer.py lines 15-20): the two
`deque(maxlen=nbuf)` ring buffers of raw sample blocks and the bound
`nbuf = buffer_seconds * samplerate` itself. -/
structure ViewerState where
  nbuf : ℕ
  pre_buf : List (List ℚ)
  post_buf : List (List ℚ)

/-- `WaveSpectrogramViewer.__init__(samplerate, buffer_seconds)`:
`nbuf = buffer_seconds * samplerate`, both deques empty. -/
def viewerInit (samplerate buffer_seconds : ℕ) : ViewerState :=
  ⟨buffer_seconds * samplerate, [], []⟩

/-- `deque(maxlen=m).append(blk)`: append one element, evicting from the left
while the element count exceeds `m`. -/
def dequeAppend (m : ℕ) (buf : List (List ℚ)) (blk : List ℚ) : List (List ℚ) :=
  let b := buf ++ [blk]
  b.drop (b.length - m)

/-- `WaveSpectrogramViewer.add_data(pre, post)` (viewer.py lines 67-71): push
one pre-filter and one post-filter block into the two deques. -/
def add_data (s : ViewerState) (pre post : List ℚ) : ViewerState :=
  { s with
    pre_buf := dequeAppend s.nbuf s.pre_buf pre
    post_buf := dequeAppend s.nbuf s.post_buf post }

/-- Total number of buffered samples across the blocks of one ring buffer. -/
def totalSamples (buf : List (List ℚ)) : ℕ :=
  (buf.map List.length).sum

/-- JSON values, as produced by `json.loads`. -/
inductive Json where
  | null : Json
  | bool : Bool → Json
  | num : ℚ → Json
  | str : String → Json
  | arr : List Json → Json
  | obj : List (String × Json) → Json

/-- Python `dict.get(key, default)` on a parsed JSON object (first binding of
the key wins; `json.loads` keeps the last duplicate, but keys of a parsed
object are unique). -/
def dictGet : List (String × Json) → String → Json → Json
  | [], _, d => d
  | (k, v) :: rest, key, d => if k = key then v else dictGet rest key d

/-- Key lookup without a default, to state which bindings `load_preset`
depends on. -/
def dictFind : List (String × Json) → String → Option Json
  | [], _ => none
  | (k, v) :: rest, key => if k = key then some v else dictFind rest key

/-- `load_preset` (presets.py lines 20-23, and identically
src/tuning/presets.py lines 17-19) applied to the parsed top-level object:
`obj.get("bands", [])`. -/
def load_preset (o : List (String × Json)) : Json :=
  dictGet o "bands" (Json.arr [])

/-- Identity biquad (`y[n] = x[n]`), used to build small concrete chains. -/
def idB : Biquad ℚ := ⟨1, 0, 0, 1, 0, 0⟩

/-- One-pole smoothing biquad (`y[n] = x[n] + y[n-1]/2`), a section whose state
genuinely depends on how often it has been run. -/
def smoothB : Biquad ℚ := ⟨1, 0, 0, 1, -(1 / 2), 0⟩

/-- A concrete three-section chain whose third section (the bass index) is the
smoothing biquad. -/
def smoothChain : List (List (Biquad ℚ)) := [[idB], [idB], [smoothB]]

/-- A concrete three-section chain of identity sections. -/
def idChain3 : List (List (Biquad ℚ)) := [[idB], [idB], [idB]]

/-- All-zero initial states for a three-section chain of single biquads. -/
def zi3 : List (List (BqState ℚ)) := [[(0, 0)], [(0, 0)], [(0, 0)]]

/-! Lemmas about the block-processing engine. -/

theorem biquadFilter_length {α : Type} [LinearOrderedField α] (c : Biquad α) :
    ∀ (s : BqState α) (x : List α), (biquadFilter c s x).1.length = x.length := by
  intro s x
  induction x generalizing s with
  | nil => rfl
  | cons xn xs ih => simp [biquadFilter, ih]

theorem sosfilt_length {α : Type} [LinearOrderedField α] :
    ∀ (cs : List (Biquad α)) (zs : List (BqState α)) (x : List α),
      (sosfilt cs zs x).1.length = x.length := by
  intro cs
  induction cs with
  | nil => intro zs x; rfl
  | cons c cs ih => intro zs x; simp [sosfilt, ih, biquadFilter_length]

theorem chainFilterAux_length {α : Type} [LinearOrderedField α] (bass : ℕ) :
    ∀ (chain : List (List (Biquad α))) (zis : List (List (BqState α))) (i : ℕ) (x : List α),
      (chainFilterAux bass chain zis i x).1.length = x.length := by
  intro chain
  induction chain with
  | nil => intro zis i x; rfl
  | cons sos rest ih =>
    intro zis i x
    by_cases h : i = bass
    · simp [chainFilterAux, h, ih, List.length_zipWith, sosfilt_length]
    · simp [chainFilterAux, h, ih, sosfilt_length]

theorem biquadFilter_append {α : Type} [LinearOrderedField α] (c : Biquad α) :
    ∀ (s : BqState α) (xA xB : List α),
      biquadFilter c s (xA ++ xB) =
        ((biquadFilter c s xA).1 ++ (biquadFilter c (biquadFilter c s xA).2 xB).1,
          (biquadFilter c (biquadFilter c s xA).2 xB).2) := by
  intro s xA xB
  induction xA generalizing s with
  | nil => simp [biquadFilter]
  | cons xn xs ih => simp [biquadFilter, ih]

theorem sosfilt_append {α : Type} [LinearOrderedField α] :
    ∀ (cs : List (Biquad α)) (zs : List (BqState α)) (xA xB : List α),
      sosfilt cs zs (xA ++ xB) =
        ((sosfilt cs zs xA).1 ++ (sosfilt cs (sosfilt cs zs xA).2 xB).1,
          (sosfilt cs (sosfilt cs zs xA).2 xB).2) := by
  intro cs
  induction cs with
  | nil => intro zs xA xB; simp [sosfilt]
  | cons c cs ih =>
    intro zs xA xB
    simp only [sosfilt, biquadFilter_append, List.headD_cons, List.tail_cons]
    rw [ih]

theorem applyOnce_append {α : Type} [LinearOrderedField α] :
    ∀ (chain : List (List (Biquad α))) (zis : List (List (BqState α))) (xA xB : List α),
      applyOnce chain zis (xA ++ xB) =
        ((applyOnce chain zis xA).1 ++ (applyOnce chain (applyOnce chain zis xA).2 xB).1,
          (applyOnce chain (applyOnce chain zis xA).2 xB).2) := by
  intro chain
  induction chain with
  | nil => intro zis xA xB; simp [applyOnce]
  | cons sos rest ih =>
    intro zis xA xB
    simp only [applyOnce, sosfilt_append, List.headD_cons, List.tail_cons]
    rw [ih]

theorem chainFilterAux_of_bass_lt {α : Type} [LinearOrderedField α] (bass : ℕ) :
    ∀ (chain : List (List (Biquad α))) (zis : List (List (BqState α))) (i : ℕ) (x : List α),
      bass < i → chainFilterAux bass chain zis i x = applyOnce chain zis x := by
  intro chain
  induction chain with
  | nil => intro zis i x _; rfl
  | cons sos rest ih =>
    intro zis i x h
    have hne : i ≠ bass := by omega
    simp only [chainFilterAux, applyOnce, if_neg hne]
    rw [ih _ _ _ (by omega)]

theorem chainFilterAux_of_short {α : Type} [LinearOrderedField α] (bass : ℕ) :
    ∀ (chain : List (List (Biquad α))) (zis : List (List (BqState α))) (i : ℕ) (x : List α),
      i + chain.length ≤ bass → chainFilterAux bass chain zis i x = applyOnce chain zis x := by
  intro chain
  induction chain with
  | nil => intro zis i x _; rfl
  | cons sos rest ih =>
    intro zis i x h
    have hne : i ≠ bass := by simp at h; omega
    simp only [chainFilterAux, applyOnce, if_neg hne]
    rw [ih _ _ _ (by simp at h ⊢; omega)]

/-- C1: for every input block, when the stream engine reaches the bass-boost
section (the section at the marked index `bass_idx = 2`), it filters the block
through that section twice sequentially against the same persistent state —
first producing the parallel tap `low` (advancing the state), then the
in-series continuation (advancing that same, already advanced, state again) —
and the working signal becomes the series output plus `2.0 ·` the tap; every
other section (the two before the branch and all sections after it) is applied
exactly once in chain order. -/
theorem c1_bass_branch_double_filter {α : Type} [LinearOrderedField α]
    (s0 s1 sb : List (Biquad α)) (post : List (List (Biquad α)))
    (z0 z1 zb : List (BqState α)) (zpost : List (List (BqState α))) (x : List α) :
    chainFilterAux bass_idx (s0 :: s1 :: sb :: post) (z0 :: z1 :: zb :: zpost) 0 x =
      (let r0 := sosfilt s0 z0 x
       let r1 := sosfilt s1 z1 r0.1
       let low := sosfilt sb zb r1.1
       let ser := sosfilt sb low.2 r1.1
       let mixed := List.zipWith (fun a l => a + l * 2) ser.1 low.1
       let rest := applyOnce post zpost mixed
       (rest.1, r0.2 :: r1.2 :: ser.2 :: rest.2)) := by
  simp only [chainFilterAux, bass_idx, List.headD_cons, List.tail_cons,
    show (0 : ℕ) ≠ 2 by omega, show (1 : ℕ) ≠ 2 by omega, if_false, if_true, ite_false,
    reduceIte]
  rw [chainFilterAux_of_bass_lt _ _ _ _ _ (by norm_num [bass_idx])]

/-- C5 counterexample: splitting a block is observable.  First conjunct: with a
three-section identity chain the whole block passes the noise gate but the
quiet first sub-block alone is gated to zero, so the concatenated split outputs
differ from the whole-block output.  Second conjunct: with a stateful section
at the bass index no gate fires anywhere, yet the double state advance of the
bass branch desynchronizes the split run from the whole-block run. -/
theorem c5_split_cex :
    ((_process idChain3 zi3 ([1 / 1000, 1 / 1000] ++ [1, 1])).1 ≠
      (_process idChain3 zi3 [1 / 1000, 1 / 1000]).1 ++
        (_process idChain3 (_process idChain3 zi3 [1 / 1000, 1 / 1000]).2 [1, 1]).1)
    ∧ ((_process smoothChain zi3 ([1, 0] ++ [0, 0])).1 ≠
      (_process smoothChain zi3 [1, 0]).1 ++
        (_process smoothChain (_process smoothChain zi3 [1, 0]).2 [0, 0]).1) := by
  constructor
  · with_unfolding_all decide
  · with_unfolding_all decide

theorem map_mul_zero {α : Type} [LinearOrderedField α] (y : List α) :
    (y.map fun v => v * 0) = List.replicate y.length 0 := by
  induction y with
  | nil => rfl
  | cons a l ih => simp [ih, List.replicate_succ]

theorem meanSq_nonneg {α : Type} [LinearOrderedField α] (x : List α) : 0 ≤ meanSq x := by
  unfold meanSq
  apply div_nonneg _ (Nat.cast_nonneg _)
  apply List.sum_nonneg
  intro a ha
  simp only [List.mem_map] at ha
  obtain ⟨b, _, rfl⟩ := ha
  exact mul_self_nonneg b

theorem meanSq_replicate_zero {α : Type} [LinearOrderedField α] (n : ℕ) :
    meanSq (List.replicate n (0 : α)) = 0 := by
  simp [meanSq]

theorem gateTriggers_iff_realRms (y : List ℝ) :
    gateTriggers y = true ↔ realRms y < (10 : ℝ) ^ ((-45 : ℝ) / 20) := by
  have hm : (0 : ℝ) ≤ meanSq y := meanSq_nonneg y
  have h10 : (0 : ℝ) < 10 := by norm_num
  have hth : (0 : ℝ) < (10 : ℝ) ^ ((-45 : ℝ) / 20) := Real.rpow_pos_of_pos h10 _
  rw [gateTriggers, decide_eq_true_eq, realRms, Real.sqrt_lt' hth]
  have h1 : ((10 : ℝ) ^ ((-45 : ℝ) / 20)) ^ (2 : ℕ) = (10 : ℝ) ^ ((-9 : ℝ) / 2) := by
    rw [← Real.rpow_natCast ((10 : ℝ) ^ ((-45 : ℝ) / 20)) 2, ← Real.rpow_mul h10.le]
    norm_num
  have h2 : ((10 : ℝ) ^ ((-9 : ℝ) / 2)) ^ (2 : ℕ) = 1 / 10 ^ 9 := by
    rw [← Real.rpow_natCast ((10 : ℝ) ^ ((-9 : ℝ) / 2)) 2, ← Real.rpow_mul h10.le]
    rw [show ((-9 : ℝ) / 2 * ((2 : ℕ) : ℝ)) = ((-9 : ℤ) : ℝ) by push_cast; ring,
      Real.rpow_intCast]
    norm_num
  have hc : (0 : ℝ) < (10 : ℝ) ^ ((-9 : ℝ) / 2) := Real.rpow_pos_of_pos h10 _
  rw [h1]
  constructor
  · intro hlt
    by_contra hge
    push_neg at hge
    have hp := pow_le_pow_left₀ hc.le hge 2
    rw [h2] at hp
    linarith
  · intro hlt
    have hp := pow_lt_pow_left₀ hlt hm (two_ne_zero)
    rw [h2] at hp
    exact hp

/-- C2: for every input block, after the full filter cascade the engine
computes the RMS of the filtered block and returns an all-zero block exactly
when that RMS is strictly below `10^(-45/20)`; otherwise the filtered block is
returned unmodified (no smoothing or ramping). -/
theorem c2_noise_gate (chain : List (List (Biquad ℝ))) (zi : List (List (BqState ℝ)))
    (x : List ℝ) :
    ((_process chain zi x).1 = List.replicate x.length 0 ↔
      realRms (chainFilterAux bass_idx chain zi 0 x).1 < (10 : ℝ) ^ ((-45 : ℝ) / 20))
    ∧ (_process chain zi x).1 =
      if realRms (chainFilterAux bass_idx chain zi 0 x).1 < (10 : ℝ) ^ ((-45 : ℝ) / 20)
      then List.replicate x.length 0
      else (chainFilterAux bass_idx chain zi 0 x).1 := by
  have hlen := chainFilterAux_length bass_idx chain zi 0 x
  by_cases h : realRms (chainFilterAux bass_idx chain zi 0 x).1 < (10 : ℝ) ^ ((-45 : ℝ) / 20)
  · have hg : gateTriggers (chainFilterAux bass_idx chain zi 0 x).1 = true :=
      (gateTriggers_iff_realRms _).mpr h
    constructor
    · simp [_process, hg, map_mul_zero, hlen, h]
    · simp [_process, hg, map_mul_zero, hlen, if_pos h]
  · have hg : gateTriggers (chainFilterAux bass_idx chain zi 0 x).1 = false := by
      rw [Bool.eq_false_iff]
      exact fun hc => h ((gateTriggers_iff_realRms _).mp hc)
    have hz : realRms (List.replicate x.length (0 : ℝ)) < (10 : ℝ) ^ ((-45 : ℝ) / 20) := by
      rw [realRms, meanSq_replicate_zero, Real.sqrt_zero]
      exact Real.rpow_pos_of_pos (by norm_num) _
    constructor
    · simp only [_process, hg, Bool.false_eq_true, if_false]
      constructor
      · intro hy
        rw [hy]
        exact hz
      · intro hrms
        exact absurd hrms h
    · simp [_process, hg, if_neg h]

/-- C5 (amended): split processing agrees with whole-block processing exactly
when neither special path of `_process` intervenes — the chain is too short to
reach the bass-boost index and the noise gate fires on none of the whole block,
the first sub-block, or the second sub-block.  (The counterexample
`c5_split_cex` shows both special paths break the unrestricted claim.) -/
theorem c5_split_continuity (chain : List (List (Biquad ℚ))) (zi : List (List (BqState ℚ)))
    (xA xB : List ℚ)
    (hlen : chain.length ≤ 2)
    (hW : gateTriggers (applyOnce chain zi (xA ++ xB)).1 = false)
    (hA : gateTriggers (applyOnce chain zi xA).1 = false)
    (hB : gateTriggers (applyOnce chain (applyOnce chain zi xA).2 xB).1 = false) :
    (_process chain zi (xA ++ xB)).1 =
      (_process chain zi xA).1 ++ (_process chain (_process chain zi xA).2 xB).1
    ∧ (_process chain zi (xA ++ xB)).2 = (_process chain (_process chain zi xA).2 xB).2 := by
  have e : ∀ (z : List (List (BqState ℚ))) (inp : List ℚ),
      chainFilterAux bass_idx chain z 0 inp = applyOnce chain z inp := fun z inp =>
    chainFilterAux_of_short bass_idx chain z 0 inp (by simpa [bass_idx] using hlen)
  simp only [_process, e, hW, hA, hB, Bool.false_eq_true, if_false]
  rw [applyOnce_append]
  exact ⟨rfl, rfl⟩

theorem c5_split_continuity_witness :
    (_process [[idB], [idB]] [[(0, 0)], [(0, 0)]] ([1] ++ [1])).1 =
      (_process [[idB], [idB]] [[(0, 0)], [(0, 0)]] [1]).1 ++
        (_process [[idB], [idB]] (_process [[idB], [idB]] [[(0, 0)], [(0, 0)]] [1]).2 [1]).1 :=
  (c5_split_continuity [[idB], [idB]] [[(0, 0)], [(0, 0)]] [1] [1]
    (by norm_num)
    (by with_unfolding_all decide)
    (by with_unfolding_all decide)
    (by with_unfolding_all decide)).1

theorem _peaking_sos_eq_spec (f0 gain_db Q : ℚ) (fs : ℤ) :
    _peaking_sos f0 gain_db Q fs = peakingCookbookSpec f0 gain_db Q fs := rfl

/-- C3: for every sample rate at which chain design succeeds and every list of
extra bands, the designed chain is exactly the construction-order list
high-pass 80 Hz, notch 60 Hz, low-pass 120 Hz, peaking 3000 Hz, low-pass
9000 Hz, then one peaking section per extra band; hence its section count is
`5 +` the number of extra bands, and the bass-boost branch index `bass_idx` is
fixed at 2 (0-indexed), pointing at the 120 Hz low-pass. -/
theorem c3_chain_structure (fs : ℤ) (bands : List BandSpec)
    (chain : List (List (Biquad ℝ))) (h : design_eq fs bands = some chain) :
    chain = [hp80 fs, notch60 fs, bassLp120 fs, presence3000 fs, lp9000 fs]
        ++ bands.map (fun b => _peaking_sos b.freq (b.gain_db.getD 6) (b.Q.getD 4) fs)
    ∧ chain.length = 5 + bands.length
    ∧ bass_idx = 2
    ∧ chain[bass_idx]? = some (bassLp120 fs) := by
  rw [design_eq] at h
  by_cases hv : designValid fs = true
  · rw [if_pos hv, Option.some_inj] at h
    subst h
    refine ⟨rfl, by simp; omega, rfl, ?_⟩
    rfl
  · rw [if_neg hv] at h
    exact absurd h (by simp)

theorem c3_chain_structure_witness :
    ((design_eq 48000 [⟨"band", 1000, none, none⟩]).getD []).length = 5 + 1
    ∧ ((design_eq 48000 [⟨"band", 1000, none, none⟩]).getD [])[bass_idx]? =
        some (bassLp120 48000) := by
  have h : design_eq 48000 [⟨"band", 1000, none, none⟩] =
      some ((design_eq 48000 [⟨"band", 1000, none, none⟩]).getD []) := rfl
  exact ⟨(c3_chain_structure _ _ _ h).2.1, (c3_chain_structure _ _ _ h).2.2.2⟩

/-- C4 counterexample: the claim that chain design fails whenever an extra
band's frequency is out of range, and succeeds for every positive sample rate
with in-range bands, is false twice over.  First conjunct: a band at 47000 Hz
(far above the 24000 Hz Nyquist frequency of `fs = 48000`) is accepted without
any error — the repository validates no band parameter.  Second conjunct:
`fs = 16000` is positive with no bands at all, yet design fails, because the
fixed 9000 Hz low-pass exceeds that rate's Nyquist frequency. -/
theorem c4_validation_cex :
    (design_eq 48000 [⟨"band", 47000, none, none⟩]).isSome = true
    ∧ (design_eq 16000 []).isSome = false := ⟨rfl, rfl⟩

/-- C4 (amended): design performs no validation of the extra bands at all —
any band list is accepted whenever the fixed sections are; failure (a scipy
ValueError, the code defines no InvalidParameter) occurs exactly when a fixed
critical frequency is out of range, i.e. iff `fs ≤ 18000` (which subsumes
`fs ≤ 0`), never because of a band frequency. -/
theorem c4_design_failure_iff (fs : ℤ) (bands : List BandSpec) :
    (design_eq fs bands).isSome = true ↔ 18000 < fs := by
  rw [design_eq]
  by_cases hv : designValid fs = true
  · rw [if_pos hv]
    simp only [Option.isSome_some, true_iff]
    simp only [designValid, Bool.and_eq_true, decide_eq_true_eq] at hv
    omega
  · rw [if_neg hv]
    simp only [Option.isSome_none, Bool.false_eq_true, false_iff]
    intro hfs
    exact hv (by simp only [designValid, Bool.and_eq_true, decide_eq_true_eq]; omega)

/-- C7: for each extra band, chain design appends (at position `5 + i` for the
`i`-th band) one peaking section whose coefficients equal the Audio EQ
Cookbook formula of the spec, evaluated at the band's frequency, at gain
`gain_db` or 6.0 when absent, and at `Q` or 4.0 when absent — the defaults
being applied at chain-construction time. -/
theorem c7_extra_band_cookbook (fs : ℤ) (bands : List BandSpec)
    (chain : List (List (Biquad ℝ))) (h : design_eq fs bands = some chain)
    (i : ℕ) (b : BandSpec) (hb : bands[i]? = some b) :
    chain[5 + i]? = some (peakingCookbookSpec b.freq (b.gain_db.getD 6) (b.Q.getD 4) fs) := by
  have hc := (c3_chain_structure fs bands chain h).1
  subst hc
  rw [List.getElem?_append_right (by simp)]
  simp [hb, _peaking_sos_eq_spec]

theorem c7_extra_band_cookbook_witness :
    ((design_eq 48000 [⟨"tuned", 1000, none, none⟩]).getD [])[5 + 0]? =
      some (peakingCookbookSpec 1000 6 4 48000) := by
  have h : design_eq 48000 [⟨"tuned", 1000, none, none⟩] =
      some ((design_eq 48000 [⟨"tuned", 1000, none, none⟩]).getD []) := rfl
  exact c7_extra_band_cookbook 48000 [⟨"tuned", 1000, none, none⟩] _ h 0
    ⟨"tuned", 1000, none, none⟩ rfl

theorem hanning_length (M : ℕ) : (hanning M).length = M := by
  by_cases h : M = 1
  · subst h; rfl
  · rw [hanning, if_neg h, List.length_map, List.length_range]

theorem rfftMag_length (l : List ℝ) : (rfftMag l).length = l.length / 2 + 1 := by
  rw [rfftMag, List.length_map, List.length_range]

theorem argmaxAux_lt :
    ∀ (l : List ℝ) (i best : ℕ) (bv : ℝ), best < i → argmaxAux l i best bv < i + l.length := by
  intro l
  induction l with
  | nil =>
    intro i best bv h
    simp only [argmaxAux, List.length_nil, Nat.add_zero]
    omega
  | cons v rest ih =>
    intro i best bv h
    rw [argmaxAux]
    by_cases hv : bv < v
    · rw [if_pos hv]
      have := ih (i + 1) i v (by omega)
      simpa [Nat.add_comm, Nat.add_left_comm] using this
    · rw [if_neg hv]
      have := ih (i + 1) best bv (by omega)
      simpa [Nat.add_comm, Nat.add_left_comm] using this

theorem argmaxIdx_lt (l : List ℝ) (h : l ≠ []) : argmaxIdx l < l.length := by
  match l with
  | v :: rest =>
    have h1 := argmaxAux_lt rest 1 0 v (by omega)
    simp only [argmaxIdx, List.length_cons]
    omega

theorem zipWith_mul_replicate_zero :
    ∀ (m : ℕ) (l : List ℝ),
      List.zipWith (· * ·) (List.replicate m 0) l = List.replicate (min m l.length) 0 := by
  intro m
  induction m with
  | zero => intro l; simp
  | succ k ih =>
    intro l
    cases l with
    | nil => simp
    | cons a l' => simp [List.replicate_succ, ih, Nat.succ_min_succ]

theorem getD_replicate_zero : ∀ (k i : ℕ), (List.replicate k (0 : ℝ)).getD i 0 = 0 := by
  intro k
  induction k with
  | zero => intro i; simp
  | succ j ih =>
    intro i
    cases i with
    | zero => simp [List.replicate_succ]
    | succ i' =>
      rw [List.replicate_succ, List.getD_cons_succ]
      exact ih i'

theorem rfftMag_replicate_zero (m : ℕ) :
    rfftMag (List.replicate m (0 : ℝ)) = List.replicate (m / 2 + 1) 0 := by
  rw [List.eq_replicate_iff]
  refine ⟨by rw [rfftMag_length, List.length_replicate], ?_⟩
  intro b hb
  rw [rfftMag] at hb
  simp only [List.mem_map, List.mem_range] at hb
  obtain ⟨k, _, rfl⟩ := hb
  rw [Finset.sum_eq_zero]
  · simp
  · intro j _
    rw [getD_replicate_zero]
    simp

theorem getD_map_range (m i : ℕ) (f : ℕ → ℝ) (h : i < m) :
    ((List.range m).map f).getD i 0 = f i := by
  rw [List.getD_eq_getElem?_getD]
  simp [List.getElem?_map, List.getElem?_range, h]

/-- C6: the detector Hann-windows the samples, takes the magnitude of the
real-input FFT, and: it returns `none` exactly when the peak windowed
magnitude is strictly below the fixed absolute threshold `1e-4`; it returns
the frequency of the `np.argmax` magnitude bin (`argmax · fs / N`) exactly
otherwise; and on an all-zero input it returns `none`. -/
theorem c6_dominant_freq (x0 : ℝ) (xs : List ℝ) (fs : ℝ) (n : ℕ) :
    (_dominant_freq (x0 :: xs) fs = none ↔ peakMag (x0 :: xs) < 1 / 10000)
    ∧ (_dominant_freq (x0 :: xs) fs =
        some ((argmaxIdx (magSpec (x0 :: xs)) : ℝ) * fs / ((x0 :: xs).length : ℝ))
        ↔ ¬peakMag (x0 :: xs) < 1 / 10000)
    ∧ _dominant_freq (List.replicate (n + 1) (0 : ℝ)) fs = none := by
  have hchar : ∀ (y : List ℝ), _dominant_freq y fs =
      if peakMag y < 1 / 10000 then none
      else some ((rfftfreq (List.zipWith (· * ·) y (hanning y.length)).length fs).getD
        (argmaxIdx (magSpec y)) 0) := fun y => rfl
  refine ⟨?_, ?_, ?_⟩
  · rw [hchar]
    by_cases h : peakMag (x0 :: xs) < 1 / 10000
    · rw [if_pos h]
      exact iff_of_true rfl h
    · rw [if_neg h]
      exact iff_of_false (by simp) h
  · rw [hchar]
    by_cases h : peakMag (x0 :: xs) < 1 / 10000
    · rw [if_pos h]
      exact iff_of_false (by simp) (by simpa using h)
    · have hxw : (List.zipWith (· * ·) (x0 :: xs) (hanning (x0 :: xs).length)).length =
          (x0 :: xs).length := by
        rw [List.length_zipWith, hanning_length, min_self]
      have hmaglen : (magSpec (x0 :: xs)).length = (x0 :: xs).length / 2 + 1 := by
        rw [magSpec, rfftMag_length, hxw]
      have hmagne : magSpec (x0 :: xs) ≠ [] := by
        intro hc
        rw [hc] at hmaglen
        simp at hmaglen
      have hidx : argmaxIdx (magSpec (x0 :: xs)) < (x0 :: xs).length / 2 + 1 := by
        rw [← hmaglen]
        exact argmaxIdx_lt _ hmagne
      have hval : (rfftfreq (List.zipWith (· * ·) (x0 :: xs)
            (hanning (x0 :: xs).length)).length fs).getD (argmaxIdx (magSpec (x0 :: xs))) 0 =
          (argmaxIdx (magSpec (x0 :: xs)) : ℝ) * fs / ((x0 :: xs).length : ℝ) := by
        rw [hxw, rfftfreq, getD_map_range _ _ _ hidx]
      rw [if_neg h, hval]
      exact iff_of_true rfl h
  · rw [hchar]
    have hxw : List.zipWith (· * ·) (List.replicate (n + 1) (0 : ℝ))
        (hanning (List.replicate (n + 1) (0 : ℝ)).length) = List.replicate (n + 1) 0 := by
      rw [zipWith_mul_replicate_zero, hanning_length, List.length_replicate, min_self]
    have hpeak : peakMag (List.replicate (n + 1) (0 : ℝ)) = 0 := by
      rw [peakMag, magSpec, hxw, rfftMag_replicate_zero, getD_replicate_zero]
    rw [if_pos (by rw [hpeak]; norm_num)]

theorem le_argmaxVal : ∀ (rest : List ℝ) (bv : ℝ),
    bv ≤ argmaxVal rest bv ∧ ∀ m ∈ rest, m ≤ argmaxVal rest bv := by
  intro rest
  induction rest with
  | nil => intro bv; exact ⟨le_refl _, by simp⟩
  | cons v rest' ih =>
    intro bv
    rw [argmaxVal]
    by_cases hv : bv < v
    · rw [if_pos hv]
      refine ⟨le_of_lt (lt_of_lt_of_le hv (ih v).1), ?_⟩
      intro m hm
      rcases List.mem_cons.mp hm with h | h
      · exact h ▸ (ih v).1
      · exact (ih v).2 m h
    · rw [if_neg hv]
      refine ⟨(ih bv).1, ?_⟩
      intro m hm
      rcases List.mem_cons.mp hm with h | h
      · exact h ▸ le_trans (not_lt.mp hv) (ih bv).1
      · exact (ih bv).2 m h

theorem argmaxAux_getD : ∀ (rest : List ℝ) (i best : ℕ) (bv : ℝ) (l : List ℝ),
    l.getD best 0 = bv → (∀ j, l.getD (i + j) 0 = rest.getD j 0) →
    l.getD (argmaxAux rest i best bv) 0 = argmaxVal rest bv := by
  intro rest
  induction rest with
  | nil => intro i best bv l hb _; exact hb
  | cons v rest' ih =>
    intro i best bv l hb hj
    have hv0 : l.getD i 0 = v := by simpa using hj 0
    rw [argmaxAux, argmaxVal]
    by_cases hv : bv < v
    · rw [if_pos hv, if_pos hv]
      refine ih (i + 1) i v l hv0 ?_
      intro j
      have := hj (j + 1)
      rw [show i + (j + 1) = i + 1 + j by omega] at this
      simpa using this
    · rw [if_neg hv, if_neg hv]
      refine ih (i + 1) best bv l hb ?_
      intro j
      have := hj (j + 1)
      rw [show i + (j + 1) = i + 1 + j by omega] at this
      simpa using this

/-- The bin `np.argmax` picks attains the maximum of the magnitude list: every
magnitude is at most the one at `argmaxIdx`, so `_dominant_freq` indeed reports
the maximum-magnitude bin and `peakMag` the peak magnitude. -/
theorem getD_argmaxIdx_is_max (l : List ℝ) : ∀ m ∈ l, m ≤ l.getD (argmaxIdx l) 0 := by
  match l with
  | [] => simp
  | v :: rest =>
    have hcorr : (v :: rest).getD (argmaxIdx (v :: rest)) 0 = argmaxVal rest v := by
      refine argmaxAux_getD rest 1 0 v (v :: rest) (by simp) ?_
      intro j
      rw [show 1 + j = j + 1 by omega]
      simp
    rw [hcorr]
    intro m hm
    rcases List.mem_cons.mp hm with h | h
    · exact h ▸ (le_argmaxVal rest v).1
    · exact (le_argmaxVal rest v).2 m h

theorem peakMag_is_max (x : List ℝ) : ∀ m ∈ magSpec x, m ≤ peakMag x :=
  getD_argmaxIdx_is_max (magSpec x)

/-- C8: the claim that each ring buffer never holds more than
`buffer_seconds × sample_rate` samples fails on the code: `deque(maxlen=nbuf)`
bounds the number of *blocks*, not samples.  With `samplerate = 2`,
`buffer_seconds = 1` (claimed capacity 2 samples) three pushes of 5-sample
blocks leave 2 blocks = 10 buffered samples, five times the claimed bound,
while the viewer's own `_animate` treats the same `nbuf` as a sample count
(`signal[-self.nbuf:]`, x-limits `nbuf/sr` seconds). -/
theorem c8_capacity_counts_blocks :
    totalSamples (add_data (add_data (add_data (viewerInit 2 1)
        [0, 0, 0, 0, 0] [0, 0, 0, 0, 0]) [0, 0, 0, 0, 0] [0, 0, 0, 0, 0])
        [0, 0, 0, 0, 0] [0, 0, 0, 0, 0]).pre_buf = 10
    ∧ (viewerInit 2 1).nbuf = 2 := by
  constructor
  · rfl
  · rfl

/-- C9: in the tuner session, a non-numeric gain or Q entry falls back
silently to the defaults (6.0 dB, Q 4.0) and the loop continues with the band
accepted; a finished session with zero accepted bands exits with failure and
writes no preset; a finished session with at least one band hands the
accumulated band list, in acceptance order, to the preset writer. -/
theorem c9_tuner_session :
    (∀ (name : String) (f : ℚ) (rest : List TunerStep) (acc : List TunedBand),
      name ≠ "" →
      runTunerLoop ((⟨name, some f, Entry.invalid, Entry.invalid⟩ : TunerStep) :: rest) acc =
        runTunerLoop rest (acc ++ [⟨name, f, 6, 4⟩]))
    ∧ (∀ script : List TunerStep,
      runTunerLoop script [] = some [] → run_tuner script = some TunerOutcome.exited)
    ∧ (∀ (script : List TunerStep) (bands : List TunedBand),
      runTunerLoop script [] = some bands → bands ≠ [] →
      run_tuner script = some (TunerOutcome.saved bands)) := by
  refine ⟨?_, ?_, ?_⟩
  · intro name f rest acc h
    rw [runTunerLoop, if_neg h]
    rfl
  · intro script h
    rw [run_tuner, h]
    rfl
  · intro script bands h hne
    rw [run_tuner, h, Option.map_some']
    rw [if_neg (by simpa [List.isEmpty_iff] using hne)]

theorem c9_tuner_session_witness :
    runTunerLoop [⟨"hiss", some 2000, Entry.invalid, Entry.invalid⟩,
        ⟨"", none, Entry.empty, Entry.empty⟩] [] = some [⟨"hiss", 2000, 6, 4⟩]
    ∧ run_tuner [⟨"hiss", some 2000, Entry.invalid, Entry.invalid⟩,
        ⟨"", none, Entry.empty, Entry.empty⟩] =
      some (TunerOutcome.saved [⟨"hiss", 2000, 6, 4⟩])
    ∧ run_tuner [⟨"", none, Entry.empty, Entry.empty⟩] = some TunerOutcome.exited := by
  refine ⟨?_, ?_, ?_⟩
  · exact (c9_tuner_session.1 "hiss" 2000 [⟨"", none, Entry.empty, Entry.empty⟩] []
      (by decide)).trans rfl
  · exact c9_tuner_session.2.2 _ [⟨"hiss", 2000, 6, 4⟩] rfl (by simp)
  · exact c9_tuner_session.2.1 _ rfl

theorem dictGet_eq_find (o : List (String × Json)) (key : String) (d : Json) :
    dictGet o key d = (dictFind o key).getD d := by
  induction o with
  | nil => rfl
  | cons kv rest ih =>
    rw [dictGet, dictFind]
    by_cases h : kv.1 = key
    · rw [if_pos h, if_pos h]
      rfl
    · rw [if_neg h, if_neg h]
      exact ih

/-- C10: `load_preset` on a parsed preset object returns the empty band list
when the object has no "bands" key rather than raising; when the key is
present it returns exactly the stored bands value; and its result depends on
nothing but the "bands" binding — every unknown top-level field is ignored. -/
theorem c10_load_preset (o : List (String × Json)) :
    (dictFind o "bands" = none → load_preset o = Json.arr [])
    ∧ (∀ v : Json, dictFind o "bands" = some v → load_preset o = v)
    ∧ (∀ o' : List (String × Json), dictFind o "bands" = dictFind o' "bands" →
        load_preset o = load_preset o') := by
  refine ⟨?_, ?_, ?_⟩
  · intro h
    rw [load_preset, dictGet_eq_find, h]
    rfl
  · intro v h
    rw [load_preset, dictGet_eq_find, h]
    rfl
  · intro o' h
    rw [load_preset, dictGet_eq_find, h, load_preset, dictGet_eq_find]

theorem c10_load_preset_witness :
    load_preset [("version", Json.num 1), ("extra", Json.str "z")] = Json.arr []
    ∧ load_preset [("version", Json.num 1), ("bands", Json.arr [Json.str "b"])] =
      Json.arr [Json.str "b"] :=
  ⟨(c10_load_preset [("version", Json.num 1), ("extra", Json.str "z")]).1 rfl,
   (c10_load_preset [("version", Json.num 1),
      ("bands", Json.arr [Json.str "b"])]).2.1 _ rfl⟩
